import Mathlib

set_option maxRecDepth 8000

/-!
Verification of the differential test-oracle harness in
`nuitka/tools/testing/Common.py`: the reference-leak detector
(`checkReferenceCount`, `snapObjRefCntMap` and its explain report), the
syscall-trace parser (`getRuntimeTraceOfLoadedFiles`, POSIX/strace branch),
the sandbox auditor (`checkRuntimeLoadedFilesForOutsideAccesses`) and the
comparison runner (`compareWithCPython`).

Python strings are embedded as `List Char`; `"lit".data` denotes the literal.
Machine-level interpreter state (the object heap, `gc.collect`,
`sys.getrefcount`) is abstracted into explicit state passing / explicit
object lists, as documented on each definition.
-/

/-! ### Leak detector: `checkReferenceCount` -/

/-- Abstract interpreter state for the leak-detection loop.  The field
`total` models `getTotalReferenceCount` from the source: it performs a
`gc.collect()` (which may change interpreter state) and returns the total
reference count, hence the type `S → Int × S`.  The field `probe` models
the `checked_function` argument of `checkReferenceCount`. -/
structure LeakEnv (S : Type) where
  total : S → Int × S
  probe : S → S

/-- State after one measurement round of `checkReferenceCount`: measure the
total, run the probe, measure the total again (the body of the `for count
in range(max_rounds)` loop, without the comparison). -/
def roundStep {S : Type} (env : LeakEnv S) (s : S) : S :=
  (env.total (env.probe (env.total s).2)).2

/-- The value `ref_count1` measured at the start of a round beginning in
state `s`. -/
def roundBefore {S : Type} (env : LeakEnv S) (s : S) : Int :=
  (env.total s).1

/-- The value `ref_count2` measured after invoking the probe in a round
beginning in state `s`. -/
def roundAfter {S : Type} (env : LeakEnv S) (s : S) : Int :=
  (env.total (env.probe (env.total s).2)).1

/-- State at the start of 0-based round `r` of a session started in `s`. -/
def roundState {S : Type} (env : LeakEnv S) (s : S) : Nat → S
  | 0 => s
  | r + 1 => roundStep env (roundState env s r)

/-- Round `r` (0-based) measures equal totals immediately before and
immediately after invoking the probe. -/
def convergesAt {S : Type} (env : LeakEnv S) (s : S) (r : Nat) : Prop :=
  roundBefore env (roundState env s r) = roundAfter env (roundState env s r)

instance {S : Type} (env : LeakEnv S) (s : S) (r : Nat) :
    Decidable (convergesAt env s r) := by
  unfold convergesAt
  infer_instance

/-- The measurement loop of `checkReferenceCount` (`for count in
range(max_rounds)`): take `ref_count1`, run `checked_function`, take
`ref_count2`; on equality set `result = True` and `break`, otherwise
continue with the next round.  Returns the result together with the number
of rounds executed, which equals the number of probe invocations. -/
def leakLoop {S : Type} (env : LeakEnv S) : Nat → S → Bool × Nat
  | 0, _ => (false, 0)
  | n + 1, s =>
    if roundBefore env s = roundAfter env s then
      (true, 1)
    else
      let r := leakLoop env n (roundStep env s)
      (r.1, r.2 + 1)

/-- Result of `checkReferenceCount(checked_function, max_rounds)`:
the boolean returned to the caller. -/
def checkReferenceCount {S : Type} (env : LeakEnv S) (max_rounds : Nat) (s : S) : Bool :=
  (leakLoop env max_rounds s).1

/-- Number of times `checked_function` is invoked by a session of
`checkReferenceCount` (one invocation per executed round). -/
def probeInvocations {S : Type} (env : LeakEnv S) (max_rounds : Nat) (s : S) : Nat :=
  (leakLoop env max_rounds s).2

theorem roundState_shift {S : Type} (env : LeakEnv S) (s : S) (r : Nat) :
    roundState env s (r + 1) = roundState env (roundStep env s) r := by
  induction r with
  | zero => rfl
  | succ r ih =>
    show roundStep env (roundState env s (r + 1)) = _
    rw [ih]
    rfl

theorem convergesAt_succ {S : Type} (env : LeakEnv S) (s : S) (r : Nat) :
    convergesAt env s (r + 1) ↔ convergesAt env (roundStep env s) r := by
  unfold convergesAt
  rw [roundState_shift]

theorem convergesAt_zero {S : Type} (env : LeakEnv S) (s : S) :
    convergesAt env s 0 ↔ roundBefore env s = roundAfter env s := Iff.rfl

theorem leakLoop_true_iff {S : Type} (env : LeakEnv S) :
    ∀ (n : Nat) (s : S),
      (leakLoop env n s).1 = true ↔ ∃ r, r < n ∧ convergesAt env s r := by
  intro n
  induction n with
  | zero =>
    intro s
    simp [leakLoop]
  | succ n ih =>
    intro s
    by_cases h : roundBefore env s = roundAfter env s
    · simp only [leakLoop, if_pos h]
      constructor
      · intro _
        exact ⟨0, Nat.succ_pos n, h⟩
      · intro _
        trivial
    · simp only [leakLoop, if_neg h]
      rw [ih (roundStep env s)]
      constructor
      · rintro ⟨r, hr, hc⟩
        exact ⟨r + 1, Nat.succ_lt_succ hr, (convergesAt_succ env s r).mpr hc⟩
      · rintro ⟨r, hr, hc⟩
        match r with
        | 0 => exact absurd hc h
        | r + 1 =>
          exact ⟨r, Nat.lt_of_succ_lt_succ hr, (convergesAt_succ env s r).mp hc⟩

theorem leakLoop_no_convergence {S : Type} (env : LeakEnv S) :
    ∀ (n : Nat) (s : S), (∀ r, r < n → ¬ convergesAt env s r) →
      leakLoop env n s = (false, n) := by
  intro n
  induction n with
  | zero =>
    intro s _
    rfl
  | succ n ih =>
    intro s h
    have h0 : ¬ (roundBefore env s = roundAfter env s) := h 0 (Nat.succ_pos n)
    have hrest : ∀ r, r < n → ¬ convergesAt env (roundStep env s) r := by
      intro r hr hc
      exact h (r + 1) (Nat.succ_lt_succ hr) ((convergesAt_succ env s r).mpr hc)
    simp only [leakLoop, if_neg h0, ih (roundStep env s) hrest]

theorem leakLoop_first_convergence {S : Type} (env : LeakEnv S) :
    ∀ (n : Nat) (s : S) (r : Nat), r < n → convergesAt env s r →
      (∀ j, j < r → ¬ convergesAt env s j) →
      leakLoop env n s = (true, r + 1) := by
  intro n
  induction n with
  | zero =>
    intro s r hr
    exact absurd hr (Nat.not_lt_zero r)
  | succ n ih =>
    intro s r hr hc hfirst
    match r with
    | 0 =>
      simp only [leakLoop, if_pos ((convergesAt_zero env s).mp hc)]
    | r + 1 =>
      have h0 : ¬ (roundBefore env s = roundAfter env s) :=
        hfirst 0 (Nat.succ_pos r)
      have hc' : convergesAt env (roundStep env s) r :=
        (convergesAt_succ env s r).mp hc
      have hfirst' : ∀ j, j < r → ¬ convergesAt env (roundStep env s) j := by
        intro j hj hcj
        exact hfirst (j + 1) (Nat.succ_lt_succ hj)
          ((convergesAt_succ env s j).mpr hcj)
      simp only [leakLoop, if_neg h0,
        ih (roundStep env s) r (Nat.lt_of_succ_lt_succ hr) hc' hfirst']

/-- C1: for every probe and every `max_rounds > 0`, `checkReferenceCount`
returns `true` iff some round `r < max_rounds` (0-based; round `r` is the
`1 ≤ r+1 ≤ max_rounds`-th round) measures an equal total reference count
immediately before and immediately after invoking the probe; a converging
session stops at the first such round (invoking the probe exactly `r + 1`
times), and a non-converging session executes all `max_rounds` rounds and
returns the value `false` (it yields a boolean result, never an
exception). -/
theorem checkReferenceCount_correct {S : Type} (env : LeakEnv S) (s : S)
    (max_rounds : Nat) (hpos : 0 < max_rounds) :
    (checkReferenceCount env max_rounds s = true ↔
      ∃ r, r < max_rounds ∧ convergesAt env s r) ∧
    (∀ r, r < max_rounds → convergesAt env s r →
      (∀ j, j < r → ¬ convergesAt env s j) →
      checkReferenceCount env max_rounds s = true ∧
      probeInvocations env max_rounds s = r + 1) ∧
    ((∀ r, r < max_rounds → ¬ convergesAt env s r) →
      checkReferenceCount env max_rounds s = false ∧
      probeInvocations env max_rounds s = max_rounds) := by
  refine ⟨leakLoop_true_iff env max_rounds s, ?_, ?_⟩
  · intro r hr hc hfirst
    have h := leakLoop_first_convergence env max_rounds s r hr hc hfirst
    unfold checkReferenceCount probeInvocations
    rw [h]
    exact ⟨rfl, rfl⟩
  · intro h
    have h' := leakLoop_no_convergence env max_rounds s h
    unfold checkReferenceCount probeInvocations
    rw [h']
    exact ⟨rfl, rfl⟩

/-- C1 witness: a concrete session (total count clamps at 2, probe bumps the
state) converges at 0-based round 2 out of 5, the loop returns `true`
having invoked the probe 3 times. -/
theorem checkReferenceCount_correct_witness :
    checkReferenceCount
        (⟨fun s => (Int.ofNat (min s 2), s), fun s => s + 1⟩ : LeakEnv Nat) 5 0 = true ∧
    probeInvocations
        (⟨fun s => (Int.ofNat (min s 2), s), fun s => s + 1⟩ : LeakEnv Nat) 5 0 = 3 :=
  (checkReferenceCount_correct
      (⟨fun s => (Int.ofNat (min s 2), s), fun s => s + 1⟩ : LeakEnv Nat) 0 5
      (by decide)).2.1 2 (by decide) (by decide) (by decide)

/-- C3 counterexample: the claim that a session always executes all
`max_rounds` rounds (invoking the probe exactly `max_rounds` times) before
returning is false: with a constant total count the session converges in
the very first round, invoking the probe once although `max_rounds = 3`. -/
theorem leak_session_early_stop_counterexample :
    probeInvocations
        (⟨fun s => (0, s), fun s => s + 1⟩ : LeakEnv Nat) 3 0 = 1 ∧
    (1 : Nat) ≠ 3 := by
  constructor
  · decide
  · decide

/-- C3 amended: a session in which no round converges executes all
`max_rounds` rounds, invoking the probe exactly `max_rounds` times, before
returning `false`; a converging session instead stops at the first
convergent round `r` (0-based), invoking the probe exactly `r + 1` times,
and returns `true`. -/
theorem leak_session_round_counts {S : Type} (env : LeakEnv S) (s : S)
    (max_rounds : Nat) :
    ((∀ r, r < max_rounds → ¬ convergesAt env s r) →
      probeInvocations env max_rounds s = max_rounds ∧
      checkReferenceCount env max_rounds s = false) ∧
    (∀ r, r < max_rounds → convergesAt env s r →
      (∀ j, j < r → ¬ convergesAt env s j) →
      probeInvocations env max_rounds s = r + 1 ∧
      checkReferenceCount env max_rounds s = true) := by
  constructor
  · intro h
    have h' := leakLoop_no_convergence env max_rounds s h
    unfold checkReferenceCount probeInvocations
    rw [h']
    exact ⟨rfl, rfl⟩
  · intro r hr hc hfirst
    have h := leakLoop_first_convergence env max_rounds s r hr hc hfirst
    unfold checkReferenceCount probeInvocations
    rw [h]
    exact ⟨rfl, rfl⟩

/-- C3 witness: a concrete session whose total count grows by one per round
never converges; with `max_rounds = 2` the probe is invoked exactly 2 times
and the session returns `false`. -/
theorem leak_session_round_counts_witness :
    probeInvocations
        (⟨fun s => (Int.ofNat s, s), fun s => s + 1⟩ : LeakEnv Nat) 2 0 = 2 ∧
    checkReferenceCount
        (⟨fun s => (Int.ofNat s, s), fun s => s + 1⟩ : LeakEnv Nat) 2 0 = false :=
  (leak_session_round_counts
      (⟨fun s => (Int.ofNat s, s), fun s => s + 1⟩ : LeakEnv Nat) 0 2).1
    (by decide)

/-! ### Census snapshots: `snapObjRefCntMap` and the explain report -/

/-- A live Python object as walked by `snapObjRefCntMap` over
`gc.get_objects()`.  The constructors `censusMap1` and `censusMap2` are the
module-level census dicts `m1` and `m2` themselves (object identity, `x is
m1` in the source); `strObj s` is an object of exact type `str` with
content `s`; `keyedObj k` is any other object, carrying the textual census
key `k` that the source computes for it (one of
`"str_overload_" + ...`, `"<module dict ...>"`, `"<compiled_frame ..."`
or plain `str(x)`). -/
inductive PyObj where
  | censusMap1 : PyObj
  | censusMap2 : PyObj
  | strObj (s : List Char) : PyObj
  | keyedObj (k : List Char) : PyObj
deriving DecidableEq

/-- Whether an object is one of the two census dicts (`x is m1 or x is m2`). -/
def isCensusMap : PyObj → Bool
  | .censusMap1 => true
  | .censusMap2 => true
  | _ => false

/-- The `if k in m: m[k] += c else: m[k] = c` accumulation step of
`snapObjRefCntMap`, on an insertion-ordered association list modelling the
Python dict. -/
def addCount (m : List (List Char × Nat)) (k : List Char) (c : Nat) :
    List (List Char × Nat) :=
  match List.lookup k m with
  | some _ => m.map (fun kv => if kv.1 == k then (kv.1, kv.2 + c) else kv)
  | none => m ++ [(k, c)]

/-- One iteration of the `for x in gc.get_objects()` loop of
`snapObjRefCntMap`: the census maps themselves are skipped, a `str` whose
content is already a key of either census map is skipped, every other
object contributes its reference count `refcnt x` under its census key. -/
def snapStep (refcnt : PyObj → Nat) (other : List (List Char × Nat))
    (m : List (List Char × Nat)) (x : PyObj) : List (List Char × Nat) :=
  match x with
  | .censusMap1 => m
  | .censusMap2 => m
  | .strObj s =>
    if (List.lookup s m).isSome || (List.lookup s other).isSome then m
    else addCount m s (refcnt x)
  | .keyedObj k => addCount m k (refcnt x)

/-- The body of `snapObjRefCntMap`: clear the target map (start from `[]`)
and walk all live objects.  `refcnt` models `sys.getrefcount`, `other` is
the current content of the other census map (the one not being rebuilt),
and `objects` is the list returned by `gc.get_objects()`. -/
def snapObjRefCntMap (refcnt : PyObj → Nat) (other : List (List Char × Nat))
    (objects : List PyObj) : List (List Char × Nat) :=
  objects.foldl (snapStep refcnt other) []

theorem snapStep_censusMap (refcnt : PyObj → Nat)
    (other m : List (List Char × Nat)) (x : PyObj) (h : isCensusMap x = true) :
    snapStep refcnt other m x = m := by
  cases x with
  | censusMap1 => rfl
  | censusMap2 => rfl
  | strObj s => simp [isCensusMap] at h
  | keyedObj k => simp [isCensusMap] at h

theorem snapFold_filter (refcnt : PyObj → Nat) (other : List (List Char × Nat)) :
    ∀ (objects : List PyObj) (m : List (List Char × Nat)),
      objects.foldl (snapStep refcnt other) m =
        (objects.filter (fun x => ! isCensusMap x)).foldl (snapStep refcnt other) m := by
  intro objects
  induction objects with
  | nil => intro m; rfl
  | cons x xs ih =>
    intro m
    by_cases hx : isCensusMap x = true
    · have hstep := snapStep_censusMap refcnt other m x hx
      simp only [List.foldl_cons, List.filter_cons, hx, Bool.not_true, hstep]
      exact ih m
    · have hx' : (! isCensusMap x) = true := by
        cases hb : isCensusMap x
        · rfl
        · exact absurd hb hx
      simp only [List.foldl_cons, List.filter_cons, hx', if_pos]
      exact ih (snapStep refcnt other m x)

/-- C9: a census snapshot never measures the census storage itself: the
snapshot of any heap equals the snapshot of the same heap with the two
census maps removed, i.e. while walking live objects the maps `m1` and
`m2` are always skipped and no key of the snapshot is derived from them. -/
theorem snapObjRefCntMap_skips_census_maps (refcnt : PyObj → Nat)
    (other : List (List Char × Nat)) (objects : List PyObj) :
    snapObjRefCntMap refcnt other objects =
      snapObjRefCntMap refcnt other (objects.filter (fun x => ! isCensusMap x)) :=
  snapFold_filter refcnt other objects []

/-- One line of the `REPORT of differences` section that
`checkReferenceCount` prints when `explain` is set and the final round did
not converge.  `label` is the literal word the source prints first on the
line (`"extra:"` for a key of `m1` absent from `m2`, `"->"` between the two
counts for a key present in both with differing counts, `"missing:"` for a
key of `m2` absent from `m1`); `before`/`after` are the printed counts. -/
structure ReportLine where
  label : String
  before : Option Nat
  after : Option Nat
  key : List Char
deriving DecidableEq

/-- The explain diagnostic of `checkReferenceCount`, with `mBefore` the
snapshot `m1` taken immediately before the last round and `mAfter` the
snapshot `m2` taken after it: a first pass over `m1` prints `extra:` lines
for keys absent from `m2` and `->` pairs for keys with differing counts, a
second pass over `m2` prints `missing:` lines for keys absent from `m1`. -/
def censusReport (mBefore mAfter : List (List Char × Nat)) : List ReportLine :=
  (mBefore.filterMap (fun kv =>
    match List.lookup kv.1 mAfter with
    | none => some ⟨"extra:", some kv.2, none, kv.1⟩
    | some c2 => if kv.2 ≠ c2 then some ⟨"->", some kv.2, some c2, kv.1⟩ else none)) ++
  (mAfter.filterMap (fun kv =>
    match List.lookup kv.1 mBefore with
    | none => some ⟨"missing:", none, some kv.2, kv.1⟩
    | some _ => none))

/-- The same diagnostic as the specification describes it, used as the
comparison point for the claim: a key present only in the after snapshot is
reported as newly leaked, a key present only in the before snapshot as
unexpectedly missing, keys in both with differing counts as the pair. -/
def censusReportSpecModel (mBefore mAfter : List (List Char × Nat)) : List ReportLine :=
  (mBefore.filterMap (fun kv =>
    match List.lookup kv.1 mAfter with
    | none => some ⟨"unexpectedly missing", some kv.2, none, kv.1⟩
    | some c2 => if kv.2 ≠ c2 then some ⟨"->", some kv.2, some c2, kv.1⟩ else none)) ++
  (mAfter.filterMap (fun kv =>
    match List.lookup kv.1 mBefore with
    | none => some ⟨"newly leaked", none, some kv.2, kv.1⟩
    | some _ => none))

theorem lookup_mem {k : List Char} {c : Nat} :
    ∀ {l : List (List Char × Nat)}, List.lookup k l = some c → (k, c) ∈ l := by
  intro l
  induction l with
  | nil => intro h; simp [List.lookup] at h
  | cons kv t ih =>
    obtain ⟨k1, c1⟩ := kv
    intro h
    by_cases hk : k = k1
    · subst hk
      simp [List.lookup] at h
      subst h
      exact List.mem_cons_self _ _
    · have hk' : (k == k1) = false := beq_eq_false_iff_ne.mpr hk
      simp [List.lookup, hk'] at h
      exact List.mem_cons_of_mem _ (ih h)

/-- C2 counterexample: at `m1 = {"a": 1}` (before) and `m2 = {"b": 1}`
(after), the key `"b"` present only in the after snapshot is printed under
the label `missing:` and the key `"a"` present only in the before snapshot
under the label `extra:`; the diagnostic contains no line reporting the
after-only key as newly leaked, so the claim's assignment of the two
one-sided categories does not match the code. -/
theorem censusReport_label_counterexample :
    censusReport [("a".data, 1)] [("b".data, 1)] =
      [⟨"extra:", some 1, none, "a".data⟩, ⟨"missing:", none, some 1, "b".data⟩] ∧
    censusReportSpecModel [("a".data, 1)] [("b".data, 1)] =
      [⟨"unexpectedly missing", some 1, none, "a".data⟩,
        ⟨"newly leaked", none, some 1, "b".data⟩] ∧
    (ReportLine.mk "newly leaked" none (some 1) "b".data) ∉
      censusReport [("a".data, 1)] [("b".data, 1)] ∧
    censusReport [("a".data, 1)] [("b".data, 1)] ≠
      censusReportSpecModel [("a".data, 1)] [("b".data, 1)] := by
  decide

/-- C2 amended: when `checkReferenceCount` is called with `explain` set and
the final round does not converge, the printed diagnostic reports every key
present only in the before-round snapshot under the label `extra:` with its
before count, every key present only in the after-round snapshot under the
label `missing:` with its after count, and every key present in both
snapshots with differing counts as its before/after count pair; every line
of the diagnostic is of one of these three shapes.  (Relative to the
claim, the two one-sided designations are the code's literal labels, which
are attached to the opposite snapshots from those the claim names.) -/
theorem censusReport_correct (mBefore mAfter : List (List Char × Nat)) :
    (∀ k c, List.lookup k mBefore = some c → List.lookup k mAfter = none →
      (ReportLine.mk "extra:" (some c) none k) ∈ censusReport mBefore mAfter) ∧
    (∀ k c1 c2, List.lookup k mBefore = some c1 → List.lookup k mAfter = some c2 →
      c1 ≠ c2 →
      (ReportLine.mk "->" (some c1) (some c2) k) ∈ censusReport mBefore mAfter) ∧
    (∀ k c, List.lookup k mAfter = some c → List.lookup k mBefore = none →
      (ReportLine.mk "missing:" none (some c) k) ∈ censusReport mBefore mAfter) ∧
    (∀ line, line ∈ censusReport mBefore mAfter →
      (line.label = "extra:" ∧ line.after = none) ∨
      (line.label = "->") ∨
      (line.label = "missing:" ∧ line.before = none)) := by
  refine ⟨?_, ?_, ?_, ?_⟩
  · intro k c h1 h2
    refine List.mem_append_left _ (List.mem_filterMap.mpr ⟨(k, c), lookup_mem h1, ?_⟩)
    simp [h2]
  · intro k c1 c2 h1 h2 hne
    refine List.mem_append_left _ (List.mem_filterMap.mpr ⟨(k, c1), lookup_mem h1, ?_⟩)
    simp [h2, hne]
  · intro k c h1 h2
    refine List.mem_append_right _ (List.mem_filterMap.mpr ⟨(k, c), lookup_mem h1, ?_⟩)
    simp [h2]
  · intro line hline
    rcases List.mem_append.mp hline with h | h
    · rcases List.mem_filterMap.mp h with ⟨kv, _, heq⟩
      split at heq
      · have hv := Option.some.inj heq
        rw [← hv]
        exact Or.inl ⟨rfl, rfl⟩
      · split at heq
        · have hv := Option.some.inj heq
          rw [← hv]
          exact Or.inr (Or.inl rfl)
        · cases heq
    · rcases List.mem_filterMap.mp h with ⟨kv, _, heq⟩
      split at heq
      · have hv := Option.some.inj heq
        rw [← hv]
        exact Or.inr (Or.inr ⟨rfl, rfl⟩)
      · cases heq

/-- C2 witness: at `m1 = {"x": 3, "z": 7}` and `m2 = {"y": 5, "z": 9}` the
diagnostic contains the `extra:` line for the before-only key `"x"`, the
`missing:` line for the after-only key `"y"` and the `7 -> 9` pair for
`"z"`. -/
theorem censusReport_correct_witness :
    (ReportLine.mk "extra:" (some 3) none "x".data) ∈
      censusReport [("x".data, 3), ("z".data, 7)] [("y".data, 5), ("z".data, 9)] ∧
    (ReportLine.mk "missing:" none (some 5) "y".data) ∈
      censusReport [("x".data, 3), ("z".data, 7)] [("y".data, 5), ("z".data, 9)] ∧
    (ReportLine.mk "->" (some 7) (some 9) "z".data) ∈
      censusReport [("x".data, 3), ("z".data, 7)] [("y".data, 5), ("z".data, 9)] :=
  ⟨(censusReport_correct [("x".data, 3), ("z".data, 7)]
      [("y".data, 5), ("z".data, 9)]).1 "x".data 3 (by decide) (by decide),
   (censusReport_correct [("x".data, 3), ("z".data, 7)]
      [("y".data, 5), ("z".data, 9)]).2.2.1 "y".data 5 (by decide) (by decide),
   (censusReport_correct [("x".data, 3), ("z".data, 7)]
      [("y".data, 5), ("z".data, 9)]).2.1 "z".data 7 9 (by decide) (by decide)
      (by decide)⟩

/-! ### POSIX path primitives used by the trace parser and the auditor -/

/-- `pat.isPrefixOf s` for embedded strings (`str.startswith` in the source). -/
def strStartsWith : List Char → List Char → Bool
  | [], _ => true
  | _ :: _, [] => false
  | a :: as, b :: bs => a == b && strStartsWith as bs

/-- Substring containment (`pat in s` in the source). -/
def strContainsSub (pat : List Char) : List Char → Bool
  | [] => strStartsWith pat []
  | c :: cs => strStartsWith pat (c :: cs) || strContainsSub pat cs

/-- Splitting on a separator character (`str.split(sep)` in the source). -/
def splitOnChar (sep : Char) : List Char → List (List Char)
  | [] => [[]]
  | c :: cs =>
    if c == sep then [] :: splitOnChar sep cs
    else
      match splitOnChar sep cs with
      | [] => [[c]]
      | g :: gs => (c :: g) :: gs

/-- The part of the path after the last slash (`posixpath.basename`). -/
def basename (p : List Char) : List Char :=
  ((p.reverse).takeWhile (fun c => c != '/')).reverse

/-- Whether a string consists of slashes only (`head == '/'*len(head)`). -/
def allSlashes (l : List Char) : Bool :=
  l.all (fun c => c == '/')

/-- Removal of trailing slashes (`head.rstrip('/')`). -/
def rstripSlashes (l : List Char) : List Char :=
  ((l.reverse).dropWhile (fun c => c == '/')).reverse

/-- The directory part of a path (`posixpath.dirname`): everything up to and
including the last slash, then trailing slashes stripped unless the head is
empty or consists of slashes only. -/
def dirname (p : List Char) : List Char :=
  let head := p.take (p.length - (basename p).length)
  if head ≠ [] ∧ allSlashes head = false then rstripSlashes head else head

/-- The component scan of `posixpath.normpath`: drop empty and `.`
components, let `..` cancel a previous component where permitted. -/
def normpathComps (initialSlashes : Nat) (comps : List (List Char)) :
    List (List Char) :=
  comps.foldl (fun acc comp =>
    if comp = [] ∨ comp = ['.'] then acc
    else if comp ≠ "..".data ∨ (initialSlashes = 0 ∧ acc = []) ∨
        (acc ≠ [] ∧ acc.getLast? = some "..".data) then acc ++ [comp]
    else if acc ≠ [] then acc.dropLast
    else acc) []

/-- `posixpath.normpath`: collapse slashes and `.`/`..` components,
preserving the special leading `//`. -/
def normpath (p : List Char) : List Char :=
  if p = [] then ['.']
  else
    let initialSlashes : Nat :=
      if strStartsWith "/".data p then
        (if strStartsWith "//".data p && ! strStartsWith "///".data p then 2 else 1)
      else 0
    let res := List.replicate initialSlashes '/' ++
      List.intercalate "/".data (normpathComps initialSlashes (splitOnChar '/' p))
    if res = [] then ['.'] else res

/-- `posixpath.normcase` is the identity on POSIX, where this harness code
runs (case and separator normalization only rewrites anything on Windows). -/
def normcase (p : List Char) : List Char := p

/-- Whether a path is absolute (`posixpath.isabs`). -/
def isAbs (p : List Char) : Bool := strStartsWith "/".data p

/-- `posixpath.join` for two components. -/
def joinPath (a b : List Char) : List Char :=
  if isAbs b then b
  else if a = [] ∨ a.getLast? = some '/' then a ++ b
  else a ++ '/' :: b

/-- `posixpath.abspath` with an explicit current working directory. -/
def abspath (cwd p : List Char) : List Char :=
  normpath (if isAbs p then p else joinPath cwd p)

/-! ### Sandbox auditor: `checkRuntimeLoadedFilesForOutsideAccesses` -/

/-- The `while entry:` ancestor walk of the whitelist loop: repeatedly take
`dirname`, stopping when it no longer shrinks, and report whether the
loaded filename equals one of the iterated dirnames.  `fuel` bounds the
walk; `entry.length + 1` always suffices because `dirname` never grows a
string and the loop stops on a fixed point. -/
def whitelistAncestorHit (loaded_filename : List Char) : Nat → List Char → Bool
  | 0, _ => false
  | fuel + 1, entry =>
    if entry = [] then false
    else
      let d := dirname entry
      if d = entry then false
      else if loaded_filename = d then true
      else whitelistAncestorHit loaded_filename fuel d

/-- One whitelist entry allows a loaded filename if the filename starts
with the entry (raw string prefix) or equals one of the entry's iterated
parent directories. -/
def whitelistEntryMatches (loaded_filename entry : List Char) : Bool :=
  strStartsWith entry loaded_filename ||
    whitelistAncestorHit loaded_filename (entry.length + 1) entry

/-- Basenames of system C libraries exempted by name prefix. -/
def systemLibraryNames : List (List Char) :=
  ["ld-linux-x86-64.so".data, "libc.so.".data, "libpthread.so.".data,
   "libm.so.".data, "libdl.so.".data, "libBrokenLocale.so.".data,
   "libSegFault.so".data, "libanl.so.".data, "libcidn.so.".data,
   "libcrypt.so.".data, "libmemusage.so".data, "libmvec.so.".data,
   "libnsl.so.".data, "libnss_compat.so.".data, "libnss_db.so.".data,
   "libnss_dns.so.".data, "libnss_files.so.".data, "libnss_hesiod.so.".data,
   "libnss_nis.so.".data, "libnss_nisplus.so.".data, "libpcprofile.so".data,
   "libresolv.so.".data, "librt.so.".data, "libthread_db-1.0.so".data,
   "libthread_db.so.".data, "libutil.so.".data]

/-- The fixed table of always-exempt accesses (system configuration,
pseudo-filesystems, locale and theme directories, system shared libraries,
locale-conversion modules, the desktop-session authority file), checked on
the normalized filename and its basename in the source's order. -/
def exemptedAccess (loaded_filename : List Char) : Bool :=
  let b := basename loaded_filename
  strStartsWith "/etc/".data loaded_filename ||
  strStartsWith "/usr/etc".data loaded_filename ||
  strStartsWith "/proc/".data loaded_filename || loaded_filename == "/proc".data ||
  strStartsWith "/dev/".data loaded_filename ||
  strStartsWith "/tmp/".data loaded_filename ||
  strStartsWith "/run/".data loaded_filename ||
  strStartsWith "/sys/".data loaded_filename ||
  strStartsWith "/usr/lib/locale/".data loaded_filename ||
  strStartsWith "/usr/share/locale/".data loaded_filename ||
  strStartsWith "/usr/share/X11/locale/".data loaded_filename ||
  strStartsWith "/usr/share/themes".data loaded_filename ||
  (strContainsSub "gtk".data loaded_filename &&
    strContainsSub "/engines/".data loaded_filename) ||
  strStartsWith "/lib/terminfo/".data loaded_filename ||
  systemLibraryNames.any (fun p => strStartsWith p b) ||
  strStartsWith "libz.so".data b || strStartsWith "libgcc_s.so".data b ||
  b == "gconv-modules.cache".data ||
  strContainsSub "/gconv/".data loaded_filename ||
  strStartsWith "libicu".data b ||
  b == ".Xauthority".data

/-- The per-file decision of the auditor loop body: `none` when the
whitelist or the exemption table allows the (already normalized) filename,
otherwise `some` of the filename (it is appended to the result). -/
def auditOne (white_list : List (List Char)) (f : List Char) : Option (List Char) :=
  if white_list.any (fun entry => whitelistEntryMatches f entry) then none
  else if exemptedAccess f then none
  else some f

/-- `checkRuntimeLoadedFilesForOutsideAccesses(loaded_filenames,
white_list)`: for each loaded filename in input order, normalize
(`normpath` then `normcase`), drop it when whitelisted or exempt, and
report it otherwise. -/
def checkRuntimeLoadedFilesForOutsideAccesses
    (loaded_filenames white_list : List (List Char)) : List (List Char) :=
  loaded_filenames.filterMap (fun lf => auditOne white_list (normcase (normpath lf)))

theorem auditOne_eq (white_list : List (List Char)) (f : List Char) :
    auditOne white_list f =
      if (!(white_list.any (fun entry => whitelistEntryMatches f entry)) &&
          !(exemptedAccess f)) = true then some f else none := by
  cases h1 : white_list.any (fun entry => whitelistEntryMatches f entry) <;>
    cases h2 : exemptedAccess f <;> simp [auditOne, h1, h2]

theorem filterMap_cons_eq_some {α β : Type} (g : α → Option β) (x : α)
    (xs : List α) (b : β) (h : g x = some b) :
    List.filterMap g (x :: xs) = b :: List.filterMap g xs := by
  rw [List.filterMap_cons, h]

theorem filterMap_cons_eq_none {α β : Type} (g : α → Option β) (x : α)
    (xs : List α) (h : g x = none) :
    List.filterMap g (x :: xs) = List.filterMap g xs := by
  rw [List.filterMap_cons, h]

theorem filter_cons_eq_pos {α : Type} (p : α → Bool) (x : α) (xs : List α)
    (h : p x = true) : List.filter p (x :: xs) = x :: List.filter p xs := by
  rw [List.filter_cons, if_pos h]

theorem filter_cons_eq_neg {α : Type} (p : α → Bool) (x : α) (xs : List α)
    (h : p x = false) : List.filter p (x :: xs) = List.filter p xs := by
  have h' : ¬ (p x = true) := by
    rw [h]
    exact Bool.false_ne_true
  rw [List.filter_cons, if_neg h']

theorem checkRuntime_filter_eq (loaded_filenames white_list : List (List Char)) :
    checkRuntimeLoadedFilesForOutsideAccesses loaded_filenames white_list =
      (loaded_filenames.map (fun lf => normcase (normpath lf))).filter
        (fun f => !(white_list.any (fun entry => whitelistEntryMatches f entry)) &&
          !(exemptedAccess f)) := by
  induction loaded_filenames with
  | nil => rfl
  | cons lf fs ih =>
    by_cases hp : (!(white_list.any
        (fun entry => whitelistEntryMatches (normcase (normpath lf)) entry)) &&
        !(exemptedAccess (normcase (normpath lf)))) = true
    · have ha : (fun lf => auditOne white_list (normcase (normpath lf))) lf =
          some (normcase (normpath lf)) := by
        show auditOne white_list (normcase (normpath lf)) = _
        rw [auditOne_eq, if_pos hp]
      unfold checkRuntimeLoadedFilesForOutsideAccesses
      rw [filterMap_cons_eq_some (fun lf => auditOne white_list (normcase (normpath lf)))
          lf fs _ ha, List.map_cons,
        filter_cons_eq_pos
          (fun f => (!white_list.any fun entry => whitelistEntryMatches f entry) &&
            !exemptedAccess f)
          (normcase (normpath lf)) _ hp]
      exact congrArg (List.cons (normcase (normpath lf))) ih
    · have ha : (fun lf => auditOne white_list (normcase (normpath lf))) lf =
          (none : Option (List Char)) := by
        show auditOne white_list (normcase (normpath lf)) = _
        rw [auditOne_eq, if_neg hp]
      have hpf : (!(white_list.any
          (fun entry => whitelistEntryMatches (normcase (normpath lf)) entry)) &&
          !(exemptedAccess (normcase (normpath lf)))) = false := by
        cases hcond : (!(white_list.any
            (fun entry => whitelistEntryMatches (normcase (normpath lf)) entry)) &&
            !(exemptedAccess (normcase (normpath lf))))
        · rfl
        · exact absurd hcond hp
      unfold checkRuntimeLoadedFilesForOutsideAccesses
      rw [filterMap_cons_eq_none (fun lf => auditOne white_list (normcase (normpath lf)))
          lf fs ha, List.map_cons,
        filter_cons_eq_neg
          (fun f => (!white_list.any fun entry => whitelistEntryMatches f entry) &&
            !exemptedAccess f)
          (normcase (normpath lf)) _ hpf]
      exact ih

theorem mem_checkRuntime_iff (loaded_filenames white_list : List (List Char))
    (f : List Char) :
    f ∈ checkRuntimeLoadedFilesForOutsideAccesses loaded_filenames white_list ↔
      f ∈ loaded_filenames.map (fun lf => normcase (normpath lf)) ∧
      (!(white_list.any (fun entry => whitelistEntryMatches f entry)) &&
        !(exemptedAccess f)) = true := by
  rw [checkRuntime_filter_eq]
  exact List.mem_filter

/-- C6: an accessed path (after normalization) is never reported as a
violation when its normalized form starts with some whitelist entry or
equals some iterated parent directory of a whitelist entry; every accessed
path matching no whitelist entry and no built-in exemption is reported; and
the report equals the normalized input filtered by exactly that predicate,
hence lists violations in first-seen input order. -/
theorem checkRuntime_correct (loaded_filenames white_list : List (List Char)) :
    (∀ lf, lf ∈ loaded_filenames →
      white_list.any (fun entry =>
        whitelistEntryMatches (normcase (normpath lf)) entry) = true →
      normcase (normpath lf) ∉
        checkRuntimeLoadedFilesForOutsideAccesses loaded_filenames white_list) ∧
    (∀ lf, lf ∈ loaded_filenames →
      white_list.any (fun entry =>
        whitelistEntryMatches (normcase (normpath lf)) entry) = false →
      exemptedAccess (normcase (normpath lf)) = false →
      normcase (normpath lf) ∈
        checkRuntimeLoadedFilesForOutsideAccesses loaded_filenames white_list) ∧
    (checkRuntimeLoadedFilesForOutsideAccesses loaded_filenames white_list =
      (loaded_filenames.map (fun lf => normcase (normpath lf))).filter
        (fun f => !(white_list.any (fun entry => whitelistEntryMatches f entry)) &&
          !(exemptedAccess f))) := by
  refine ⟨?_, ?_, checkRuntime_filter_eq _ _⟩
  · intro lf _ hany hcontra
    have h2 := ((mem_checkRuntime_iff loaded_filenames white_list
      (normcase (normpath lf))).mp hcontra).2
    rw [hany] at h2
    simp at h2
  · intro lf hmem hany hexempt
    refine (mem_checkRuntime_iff loaded_filenames white_list
      (normcase (normpath lf))).mpr ⟨List.mem_map_of_mem _ hmem, ?_⟩
    rw [hany, hexempt]
    rfl

/-- C6 witness: with whitelist `["/usr/lib"]`, the accessed path
`/usr/lib/z` (prefix match) is not reported while `/opt/x` (no match, not
exempt) is reported. -/
theorem checkRuntime_correct_witness :
    normcase (normpath "/usr/lib/z".data) ∉
      checkRuntimeLoadedFilesForOutsideAccesses
        ["/opt/x".data, "/usr/lib/z".data] ["/usr/lib".data] ∧
    normcase (normpath "/opt/x".data) ∈
      checkRuntimeLoadedFilesForOutsideAccesses
        ["/opt/x".data, "/usr/lib/z".data] ["/usr/lib".data] :=
  ⟨(checkRuntime_correct ["/opt/x".data, "/usr/lib/z".data] ["/usr/lib".data]).1
      "/usr/lib/z".data (by decide) (by decide),
   (checkRuntime_correct ["/opt/x".data, "/usr/lib/z".data] ["/usr/lib".data]).2.1
      "/opt/x".data (by decide) (by decide) (by decide)⟩

/-- C4 counterexample: the accessed path `/usr/libfoo/x` merely shares the
string prefix `/usr/lib` with the whitelist entry without that entry being
an ancestor directory on a path-segment boundary, yet the auditor reports
no violation (the result is empty), because whitelist matching is raw
string prefix. -/
theorem whitelist_prefix_counterexample :
    strStartsWith "/usr/lib".data (normcase (normpath "/usr/libfoo/x".data)) = true ∧
    strStartsWith "/usr/lib/".data (normcase (normpath "/usr/libfoo/x".data)) = false ∧
    normcase (normpath "/usr/libfoo/x".data) ≠ "/usr/lib".data ∧
    checkRuntimeLoadedFilesForOutsideAccesses
      ["/usr/libfoo/x".data] ["/usr/lib".data] = [] := by
  decide

/-- C4 amended: whitelist matching is raw string prefix: an accessed path
whose normalized form has any whitelist entry as a string prefix is allowed
and never reported as a violation, even when the entry is not an ancestor
directory of the path on a path-segment boundary. -/
theorem whitelist_raw_prefix_allows (loaded_filenames white_list : List (List Char))
    (lf entry : List Char) (hlf : lf ∈ loaded_filenames)
    (hentry : entry ∈ white_list)
    (hpre : strStartsWith entry (normcase (normpath lf)) = true) :
    normcase (normpath lf) ∉
      checkRuntimeLoadedFilesForOutsideAccesses loaded_filenames white_list := by
  have hany : white_list.any (fun e =>
      whitelistEntryMatches (normcase (normpath lf)) e) = true :=
    List.any_eq_true.mpr ⟨entry, hentry, by
      show whitelistEntryMatches (normcase (normpath lf)) entry = true
      unfold whitelistEntryMatches
      rw [hpre]
      rfl⟩
  intro hcontra
  have h2 := ((mem_checkRuntime_iff loaded_filenames white_list
    (normcase (normpath lf))).mp hcontra).2
  rw [hany] at h2
  simp at h2

/-- C4 witness: the shared-prefix path `/usr/libfoo/x` is allowed by the
entry `/usr/lib` of the whitelist. -/
theorem whitelist_raw_prefix_allows_witness :
    normcase (normpath "/usr/libfoo/x".data) ∉
      checkRuntimeLoadedFilesForOutsideAccesses
        ["/usr/libfoo/x".data] ["/usr/lib".data] :=
  whitelist_raw_prefix_allows ["/usr/libfoo/x".data] ["/usr/lib".data]
    "/usr/libfoo/x".data "/usr/lib".data (by decide) (by decide) (by decide)

/-- C10: if the whitelist contains the empty string, every accessed path
starts with that entry, so the auditor reports no violation on any input. -/
theorem checkRuntime_empty_whitelist_entry
    (loaded_filenames white_list : List (List Char))
    (h : ([] : List Char) ∈ white_list) :
    checkRuntimeLoadedFilesForOutsideAccesses loaded_filenames white_list = [] := by
  induction loaded_filenames with
  | nil => rfl
  | cons lf fs ih =>
    have hany : white_list.any (fun entry =>
        whitelistEntryMatches (normcase (normpath lf)) entry) = true :=
      List.any_eq_true.mpr ⟨[], h, rfl⟩
    have ha : (fun lf => auditOne white_list (normcase (normpath lf))) lf =
        (none : Option (List Char)) := by
      show auditOne white_list (normcase (normpath lf)) = none
      unfold auditOne
      rw [hany]
      rfl
    unfold checkRuntimeLoadedFilesForOutsideAccesses
    rw [filterMap_cons_eq_none (fun lf => auditOne white_list (normcase (normpath lf)))
        lf fs ha]
    exact ih

/-- C10 witness: with the whitelist `[""]` containing the empty string, an
arbitrary private path produces no report. -/
theorem checkRuntime_empty_whitelist_entry_witness :
    checkRuntimeLoadedFilesForOutsideAccesses
      ["/somewhere/private".data] [([] : List Char)] = [] :=
  checkRuntime_empty_whitelist_entry ["/somewhere/private".data]
    [([] : List Char)] (by decide)

/-! ### Trace parser: `getRuntimeTraceOfLoadedFiles` (POSIX strace branch) -/

/-- The group captured by one match of the pattern
`"(.*?)(?:\\0)?"`: the text between a pair of quotes, with one trailing
literal backslash-zero excluded from the group when present. -/
def stripBackslashZero (s : List Char) : List Char :=
  if s.reverse.take 2 = ['0', '\\'] then (s.reverse.drop 2).reverse else s

/-- Scanner for `re.findall` of the pattern above: outside quotes
(state `none`) skip until a quote opens; inside quotes (state `some acc`,
content accumulated reversed) emit the group at the closing quote; an
unterminated quote produces no further match. -/
def extractQuotedAux : Option (List Char) → List Char → List (List Char)
  | _, [] => []
  | none, c :: cs =>
    if c == '"' then extractQuotedAux (some []) cs else extractQuotedAux none cs
  | some acc, c :: cs =>
    if c == '"' then stripBackslashZero acc.reverse :: extractQuotedAux none cs
    else extractQuotedAux (some (c :: acc)) cs

/-- All quoted path arguments found on one trace line
(`re.findall(b'"(.*?)(?:\\\\0)?"', line)`). -/
def extractQuoted (line : List Char) : List (List Char) :=
  extractQuotedAux none line

/-- Index of the first occurrence of `pat` in a string, if any. -/
def findSub (pat : List Char) : List Char → Option Nat
  | [] => if strStartsWith pat [] then some 0 else none
  | c :: cs =>
    if strStartsWith pat (c :: cs) then some 0
    else (findSub pat cs).map (fun n => n + 1)

/-- Python `str.find`: index of the first occurrence or `-1`. -/
def pyFind (pat l : List Char) : Int :=
  match findSub pat l with
  | some n => Int.ofNat n
  | none => -1

/-- Clamp of one Python slice bound: negative indices count from the end. -/
def pySliceIdx (len : Nat) (i : Int) : Nat :=
  if i < 0 then
    (if i + Int.ofNat len < 0 then 0 else (i + Int.ofNat len).toNat)
  else min i.toNat len

/-- Python slice `l[a:b]` with possibly negative bounds. -/
def pySlice (l : List Char) (a b : Int) : List Char :=
  (l.take (pySliceIdx l.length b)).drop (pySliceIdx l.length a)

/-- The syscall's first argument as the source extracts it:
`line[line.find(b"(") + 2 : line.find(b", ") - 1]` (between the quote after
the opening parenthesis and the quote before the first comma). -/
def extractStracePath (line : List Char) : List Char :=
  pySlice line (pyFind "(".data line + 2) (pyFind ", ".data line - 1)

/-- The version-suffixed default interpreter aliases
`/usr/bin/python3.5` .. `/usr/bin/python3.9`. -/
def pythonVersionAliases : List (List Char) :=
  ["/usr/bin/python3.5".data, "/usr/bin/python3.6".data,
   "/usr/bin/python3.7".data, "/usr/bin/python3.8".data,
   "/usr/bin/python3.9".data]

/-- The `while binary_path:` walk over the running interpreter's path: the
filename is an expected self-reference when it equals the interpreter
binary, one of its iterated parent directories joined with the
version-suffixed name (for example `python27`), as checked by the source's
loop.  The source records the join match in `found` and keeps walking,
which never unsets `found`, so stopping at the first match is
observationally identical. -/
def pythonBinaryWalk (filename pyVersionName : List Char) :
    Nat → List Char → Bool
  | 0, _ => false
  | fuel + 1, binary_path =>
    if binary_path = [] then false
    else if filename = binary_path then true
    else if dirname binary_path = binary_path then false
    else if filename = joinPath (dirname binary_path) pyVersionName then true
    else pythonBinaryWalk filename pyVersionName fuel (dirname binary_path)

/-- The per-line body of the strace-output loop of
`getRuntimeTraceOfLoadedFiles`: empty lines and `ENOENT` lines contribute
nothing, `stat(` lines on directories (`S_IFDIR`) contribute nothing,
`lstat(`/`stat(`/`readlink(` lines whose first argument is an expected
interpreter self-reference contribute nothing, every other line
contributes `os.path.abspath` of each quoted string found on it. -/
def parseTraceLine (cwd python_executable pyVersionName line : List Char) :
    List (List Char) :=
  if line = [] then []
  else if strContainsSub "ENOENT".data line then []
  else if strStartsWith "stat(".data line && strContainsSub "S_IFDIR".data line then []
  else if (strStartsWith "lstat(".data line || strStartsWith "stat(".data line ||
      strStartsWith "readlink(".data line) &&
      (extractStracePath line == "/usr/bin/python3".data ||
       pythonVersionAliases.contains (extractStracePath line) ||
       pythonBinaryWalk (extractStracePath line) pyVersionName
         (python_executable.length + 1) python_executable) then []
  else (extractQuoted line).map (fun m => abspath cwd m)

/-- `sorted(set(result))`: deduplicate, then sort. -/
def sortedDedup (l : List (List Char)) : List (List Char) :=
  List.insertionSort (fun a b : List Char => a ≤ b) l.dedup

/-- The strace branch of `getRuntimeTraceOfLoadedFiles`: parse every line
of the captured trace and return the sorted, deduplicated path list. -/
def getRuntimeTraceOfLoadedFiles
    (cwd python_executable pyVersionName : List Char)
    (trace_lines : List (List Char)) : List (List Char) :=
  sortedDedup
    ((trace_lines.map (parseTraceLine cwd python_executable pyVersionName)).flatten)

theorem strStartsWith_cons {c : Char} {cs l : List Char}
    (h : strStartsWith (c :: cs) l = true) :
    ∃ t, l = c :: t ∧ strStartsWith cs t = true := by
  cases l with
  | nil => simp [strStartsWith] at h
  | cons b bs =>
    simp only [strStartsWith, Bool.and_eq_true, beq_iff_eq] at h
    exact ⟨bs, by rw [h.1], h.2⟩

/-- C7: in the strace-line parsing, every line containing `ENOENT`
contributes no path; every line beginning with `stat(` whose text reports a
directory (`S_IFDIR`) contributes no path; and a `readlink(` line (with a
result, hence no `ENOENT`) whose extracted first argument is not one of the
expected interpreter self-references contributes exactly the absolutized
quoted paths found on it, so its quoted path is included in the result. -/
theorem parseTraceLine_classification
    (cwd python_executable pyVersionName line : List Char) :
    (strContainsSub "ENOENT".data line = true →
      parseTraceLine cwd python_executable pyVersionName line = []) ∧
    (strStartsWith "stat(".data line = true →
      strContainsSub "S_IFDIR".data line = true →
      parseTraceLine cwd python_executable pyVersionName line = []) ∧
    (strStartsWith "readlink(".data line = true →
      strContainsSub "ENOENT".data line = false →
      (extractStracePath line == "/usr/bin/python3".data ||
        pythonVersionAliases.contains (extractStracePath line) ||
        pythonBinaryWalk (extractStracePath line) pyVersionName
          (python_executable.length + 1) python_executable) = false →
      parseTraceLine cwd python_executable pyVersionName line =
        (extractQuoted line).map (fun m => abspath cwd m)) := by
  refine ⟨?_, ?_, ?_⟩
  · intro hE
    have hne : ¬ (line = []) := by
      intro heq
      rw [heq] at hE
      exact absurd hE (by decide)
    unfold parseTraceLine
    rw [if_neg hne, if_pos hE]
  · intro hstat hdir
    by_cases hE : strContainsSub "ENOENT".data line = true
    · have hne : ¬ (line = []) := by
        intro heq
        rw [heq] at hE
        exact absurd hE (by decide)
      unfold parseTraceLine
      rw [if_neg hne, if_pos hE]
    · have hne : ¬ (line = []) := by
        intro heq
        rw [heq] at hstat
        exact absurd hstat (by decide)
      have hcond : (strStartsWith "stat(".data line &&
          strContainsSub "S_IFDIR".data line) = true := by
        rw [hstat, hdir]
        rfl
      unfold parseTraceLine
      rw [if_neg hne, if_neg hE, if_pos hcond]
  · intro hr hE hself
    obtain ⟨t, hline, _⟩ := strStartsWith_cons hr
    have hne : ¬ (line = []) := by
      rw [hline]
      intro heq
      cases heq
    have hstat : strStartsWith "stat(".data line = false := by
      rw [hline]
      rfl
    have hlstat : strStartsWith "lstat(".data line = false := by
      rw [hline]
      rfl
    have hdir : (strStartsWith "stat(".data line &&
        strContainsSub "S_IFDIR".data line) = false := by
      rw [hstat]
      rfl
    have hskip : ((strStartsWith "lstat(".data line ||
        strStartsWith "stat(".data line ||
        strStartsWith "readlink(".data line) &&
        (extractStracePath line == "/usr/bin/python3".data ||
          pythonVersionAliases.contains (extractStracePath line) ||
          pythonBinaryWalk (extractStracePath line) pyVersionName
            (python_executable.length + 1) python_executable)) = false := by
      rw [hself, Bool.and_false]
    have hEn : ¬ (strContainsSub "ENOENT".data line = true) := by
      rw [hE]
      exact Bool.false_ne_true
    have hdirn : ¬ ((strStartsWith "stat(".data line &&
        strContainsSub "S_IFDIR".data line) = true) := by
      rw [hdir]
      exact Bool.false_ne_true
    have hskipn : ¬ (((strStartsWith "lstat(".data line ||
        strStartsWith "stat(".data line ||
        strStartsWith "readlink(".data line) &&
        (extractStracePath line == "/usr/bin/python3".data ||
          pythonVersionAliases.contains (extractStracePath line) ||
          pythonBinaryWalk (extractStracePath line) pyVersionName
            (python_executable.length + 1) python_executable)) = true) := by
      rw [hskip]
      exact Bool.false_ne_true
    unfold parseTraceLine
    rw [if_neg hne, if_neg hEn, if_neg hdirn, if_neg hskipn]

/-- C7 witness: a concrete `readlink` line on a real file that is not an
interpreter self-reference contributes exactly its absolutized quoted
paths. -/
theorem parseTraceLine_classification_witness :
    parseTraceLine "/home/user".data "/usr/bin/python2.7".data "python27".data
      "readlink(\"/usr/lib/libfoo.so\", \"/real/file\", 4096) = 10".data =
      ["/usr/lib/libfoo.so".data, "/real/file".data] :=
  ((parseTraceLine_classification "/home/user".data "/usr/bin/python2.7".data
      "python27".data
      "readlink(\"/usr/lib/libfoo.so\", \"/real/file\", 4096) = 10".data).2.2
    (by decide) (by decide) (by decide)).trans (by decide)

/-- C8: for every traced execution, the list returned by
`getRuntimeTraceOfLoadedFiles` is sorted and contains no duplicate entries,
regardless of the order and multiplicity of path matches in the raw
trace. -/
theorem getRuntimeTrace_sorted_nodup
    (cwd python_executable pyVersionName : List Char)
    (trace_lines : List (List Char)) :
    List.Sorted (fun a b : List Char => a ≤ b)
      (getRuntimeTraceOfLoadedFiles cwd python_executable pyVersionName
        trace_lines) ∧
    (getRuntimeTraceOfLoadedFiles cwd python_executable pyVersionName
      trace_lines).Nodup := by
  constructor
  · exact List.sorted_insertionSort _ _
  · exact (List.perm_insertionSort _ _).symm.nodup (List.nodup_dedup _)

/-! ### Comparison runner: `compareWithCPython` -/

/-- Outcome of waiting for the external comparison tool
(`subprocess.call(command)`): either the process's exit code, or a keyboard
interrupt raised during the wait. -/
inductive WaitOutcome where
  | exit (code : Int) : WaitOutcome
  | interrupted : WaitOutcome

/-- The `result` value after the `try`/`except KeyboardInterrupt` block: a
keyboard interrupt during the wait is mapped to `2`. -/
def waitResult : WaitOutcome → Int
  | .exit code => code
  | .interrupted => 2

/-- The externally observable control decisions of one `compareWithCPython`
call: whether `search_mode.abortOnFinding` was consulted, whether the
`on_error` hook and `search_mode.onErrorDetected` were called, and the
status of a `sys.exit` terminating the whole process (`none` when the
function returns normally to the caller). -/
structure CompareTrace where
  abortPolicyConsulted : Bool
  onErrorCalled : Bool
  onErrorDetectedCalled : Bool
  processExit : Option Int
deriving DecidableEq

/-- The tail of `compareWithCPython` after the comparison tool has run:
when `result` is neither `0` nor `2`, consult `search_mode.abortOnFinding`
and, if it holds, call the `on_error` hook (when given) and
`search_mode.onErrorDetected`; afterwards, when `result == 2`, terminate
the process via `sys.exit(2)`. -/
def compareWithCPython (outcome : WaitOutcome)
    (abortOnFinding hasOnErrorHook : Bool) : CompareTrace :=
  if waitResult outcome ≠ 0 ∧ waitResult outcome ≠ 2 then
    ⟨true, abortOnFinding && hasOnErrorHook, abortOnFinding,
      if waitResult outcome = 2 then some 2 else none⟩
  else
    ⟨false, false, false, if waitResult outcome = 2 then some 2 else none⟩

/-- C5: `compareWithCPython` consults the search mode's abort policy
(`abortOnFinding`, and `onErrorDetected` exactly when that holds) exactly
when the comparator's `result` is neither `0` nor `2`; on result `0` it
returns normally without consulting the abort policy; on result `2`,
including a keyboard interrupt during the wait which is mapped to `2`, the
whole process terminates with exit status `2` regardless of the search
mode's abort policy. -/
theorem compareWithCPython_policy (outcome : WaitOutcome)
    (abortOnFinding hasOnErrorHook : Bool) :
    ((compareWithCPython outcome abortOnFinding hasOnErrorHook).abortPolicyConsulted
        = true ↔ (waitResult outcome ≠ 0 ∧ waitResult outcome ≠ 2)) ∧
    ((compareWithCPython outcome abortOnFinding hasOnErrorHook).onErrorDetectedCalled
        = true ↔
      (waitResult outcome ≠ 0 ∧ waitResult outcome ≠ 2 ∧ abortOnFinding = true)) ∧
    (waitResult outcome = 0 →
      compareWithCPython outcome abortOnFinding hasOnErrorHook =
        ⟨false, false, false, none⟩) ∧
    (waitResult outcome = 2 →
      (compareWithCPython outcome abortOnFinding hasOnErrorHook).processExit = some 2 ∧
      (compareWithCPython outcome abortOnFinding hasOnErrorHook).abortPolicyConsulted
        = false) ∧
    ((compareWithCPython WaitOutcome.interrupted abortOnFinding
        hasOnErrorHook).processExit = some 2) := by
  refine ⟨?_, ?_, ?_, ?_, ?_⟩
  · by_cases h : waitResult outcome ≠ 0 ∧ waitResult outcome ≠ 2
    · simp [compareWithCPython, h]
    · simp [compareWithCPython, h]
  · by_cases h : waitResult outcome ≠ 0 ∧ waitResult outcome ≠ 2
    · simp [compareWithCPython, h, h.1, h.2]
    · simp [compareWithCPython, h]
      intro h1 h2
      exact absurd ⟨h1, h2⟩ h
  · intro h0
    have hn : ¬ (waitResult outcome ≠ 0 ∧ waitResult outcome ≠ 2) := by
      simp [h0]
    simp [compareWithCPython, hn, h0]
  · intro h2
    have hn : ¬ (waitResult outcome ≠ 0 ∧ waitResult outcome ≠ 2) := by
      simp [h2]
    simp [compareWithCPython, hn, h2]
  · simp [compareWithCPython, waitResult]

/-- C5 witness: a comparator exit code of `0` makes `compareWithCPython`
return normally without consulting the abort policy. -/
theorem compareWithCPython_policy_witness :
    compareWithCPython (WaitOutcome.exit 0) true true =
      ⟨false, false, false, none⟩ :=
  (compareWithCPython_policy (WaitOutcome.exit 0) true true).2.2.1 (by decide)
